import Mathlib

/-!
# logx: a shallow embedding of the level, formatter and logger code

The Go sources modelled are `level.go`, `formatter.go` and `logger.go`.

* A Go `string` / `[]byte` is a finite sequence of bytes. It is modelled as a
  list of characters, one list element per byte; `len(s)` is the list length
  and `s[i]` the `i`-th element.
* A Go `int` (and `Level`, whose underlying type is `int`) is modelled as an
  unbounded `Int`. The only arithmetic in the modelled code is `l - c` for a
  constant `c` on the side of the comparison where it cannot wrap, and `n - 1`,
  `idx + 1` for `n > 0`, `idx >= 0`.
* Library code the sources call (`fmt`, `strings`, `time`, `fatih/color`,
  `runtime`, `io`) is modelled by its documented behaviour; what depends on the
  process environment (clock, call stack, sink behaviour, colour mode) is a
  parameter.
-/

namespace Logx

/-- A Go string or byte slice: a sequence of bytes, one list element each. -/
abbrev GoString := List Char

/-! ## Library: fmt -/

/-- The verb `%d` of `fmt` applied to an integer: decimal digits, with a
leading `-` for a negative value. -/
def fmtD (v : Int) : GoString :=
  if v < 0 then '-' :: Nat.toDigits 10 v.natAbs else Nat.toDigits 10 v.natAbs

/-- The verb `%+d` of `fmt` applied to an integer: the sign is always printed. -/
def fmtPlusD (v : Int) : GoString :=
  if v < 0 then '-' :: Nat.toDigits 10 v.natAbs else '+' :: Nat.toDigits 10 v.natAbs

/-! ## level.go -/

/-- Source: `type Level int`. -/
abbrev Level := Int

/-- Source: `LevelDebug Level = -4`. -/
def LevelDebug : Level := -4
/-- Source: `LevelInfo Level = 0`. -/
def LevelInfo : Level := 0
/-- Source: `LevelWarn Level = 4`. -/
def LevelWarn : Level := 4
/-- Source: `LevelError Level = 8`. -/
def LevelError : Level := 8

/-- The closure `str` inside `Level.String`:
`if val == 0 { return base }; return fmt.Sprintf("%s%+d", base, val)`. -/
def Level.String.str (base : GoString) (val : Level) : GoString :=
  if val = 0 then base else base ++ fmtPlusD val

/-- Source: `func (l Level) String() string`, the `switch` over the four bands. -/
def Level.String (l : Level) : GoString :=
  if l < LevelInfo then Level.String.str "DEBUG".toList (l - LevelDebug)
  else if l < LevelWarn then Level.String.str "INFO".toList (l - LevelInfo)
  else if l < LevelError then Level.String.str "WARN".toList (l - LevelWarn)
  else Level.String.str "ERROR".toList (l - LevelError)

/-! ## Library: strings -/

/-- The loop of `strings.LastIndexByte`: `for i := k - 1; i >= 0; i--`, returning
the first `i` met with `s[i] == c`, and `-1` when the loop ends. -/
def LastIndexByte.scan (s : GoString) (c : Char) : Nat → Int
  | 0 => -1
  | i + 1 => if s[i]? = some c then (i : Int) else LastIndexByte.scan s c i

/-- Library `strings.LastIndexByte(s, c)`: the index of the last instance of `c`
in `s`, or `-1` if `c` is not present. -/
def LastIndexByte (s : GoString) (c : Char) : Int :=
  LastIndexByte.scan s c s.length

/-! ## Library: time -/

/-- A `time.Time` as `Format` reads it: the civil date and clock of the instant
in the value's own location. -/
structure Time where
  Year : Int
  Month : Nat
  Day : Nat
  Hour : Nat
  Minute : Nat
  Second : Nat
  deriving DecidableEq

/-- Library `time.appendInt`: the decimal digits of `x`, zero-padded on the left
to `width` digits, behind a `-` when `x` is negative. -/
def appendInt (x : Int) (width : Nat) : GoString :=
  (if x < 0 then ['-'] else []) ++
    List.replicate (width - (Nat.toDigits 10 x.natAbs).length) '0' ++ Nat.toDigits 10 x.natAbs

/-- Library `t.Format("2006-01-02 15:04:05")`: the one layout the formatter uses. -/
def Time.Format (t : Time) : GoString :=
  appendInt t.Year 4 ++ '-' :: appendInt t.Month 2 ++ '-' :: appendInt t.Day 2 ++
    ' ' :: appendInt t.Hour 2 ++ ':' :: appendInt t.Minute 2 ++ ':' :: appendInt t.Second 2

/-! ## Library: github.com/fatih/color -/

/-- The `color.Attribute` constants the sources use. -/
inductive Attribute where
  | Bold | FgYellow | FgGreen | FgBlue | FgWhite | FgHiBlack | FgHiRed
  deriving DecidableEq

/-- A `*color.Color`: the attributes given to `color.New` and `Add`, in order. -/
abbrev Color := List Attribute

/-- The method `(*color.Color).Sprint` on one string argument. What it returns
depends on the colour mode of the process: the text unchanged when colour is
disabled, the text between escape sequences otherwise. -/
abbrev Sprinter := Color → GoString → GoString

/-- Colour disabled (`color.NoColor`): `Sprint` returns its text unchanged. -/
def Sprinter.plain : Sprinter := fun _ text => text

/-- Source: `func (l Level) Color() *color.Color`. -/
def Level.Color (l : Level) : Color :=
  if l ≥ LevelError then [Attribute.FgHiRed, Attribute.Bold]
  else if l ≥ LevelWarn then [Attribute.FgYellow, Attribute.Bold]
  else if l ≥ LevelInfo then [Attribute.FgGreen]
  else if l ≥ LevelDebug then [Attribute.FgBlue]
  else [Attribute.FgWhite]

/-! ## formatter.go -/

/-- Source: `type LogEntry struct`. -/
structure LogEntry where
  Time : Time
  Level : Level
  Prefix : GoString
  File : GoString
  Line : Int
  Message : GoString
  CallerSkip : Int

/-- Source: `type Formatter func(entry LogEntry) []byte`. -/
abbrev Formatter := LogEntry → GoString

/-- The `for` loop of `TrimCallerPath` with `k` iterations left:
`idx = strings.LastIndexByte(path[:idx], '/'); if idx == -1 { return path }`.
`none` is the early `return path`, `some idx` the index the loop ends with. -/
def TrimCallerPath.loop (path : GoString) : Nat → Int → Option Int
  | 0, idx => some idx
  | k + 1, idx =>
    if LastIndexByte (path.take idx.toNat) '/' = -1 then none
    else TrimCallerPath.loop path k (LastIndexByte (path.take idx.toNat) '/')

/-- Source: `func TrimCallerPath(path string, n int) string`. The loop
`for i := 0; i < n-1; i++` has `n - 1` iterations; `path[:idx]` is `take idx`
and `path[idx+1:]` is `drop (idx + 1)`. -/
def TrimCallerPath (path : GoString) (n : Int) : GoString :=
  if n ≤ 0 then path
  else if LastIndexByte path '/' = -1 then path
  else
    match TrimCallerPath.loop path (n - 1).toNat (LastIndexByte path '/') with
    | none => path
    | some idx => path.drop (idx + 1).toNat

/-- Source: `var DefaultFormatter Formatter`, with the `Sprint` of the colour
library as parameter. `fileLine` is `fmt.Sprintf("[%s:%d]", ...)` and `logStr`
is `fmt.Sprintf("%s %s %s %s%s", ...)`. -/
def DefaultFormatter (sprint : Sprinter) : Formatter := fun entry =>
  let timestamp := entry.Time.Format
  let level := entry.Level.String
  let fileLine := '[' :: TrimCallerPath entry.File 1 ++ ':' :: fmtD entry.Line ++ [']']
  let prefix_ := if entry.Prefix ≠ [] then entry.Prefix ++ ": ".toList else []
  let logStr := timestamp ++ ' ' :: sprint entry.Level.Color level ++
    ' ' :: sprint [Attribute.FgHiBlack] fileLine ++
    ' ' :: sprint [Attribute.FgHiBlack, Attribute.Bold] prefix_ ++
    sprint entry.Level.Color entry.Message
  logStr ++ "\n".toList

/-! ## Library: io, runtime, and the environment of one call -/

/-- An `io.Writer` value the logger can hold or fall back to: the process's
standard streams and any other sink, told apart by an identifier. -/
inductive Writer where
  | Stdout
  | Stderr
  | Sink (id : Nat)
  deriving DecidableEq

/-- A non-nil Go `error` value. -/
structure GoError where
  text : GoString
  deriving DecidableEq

/-- A value passed for a `...interface{}` argument. -/
inductive Value where
  | ofInt (i : Int)
  | ofString (s : GoString)
  deriving DecidableEq

/-- What one call of `log` reads from outside the Logger: the result of
`fmt.Sprintf`, of `runtime.Caller(skip)` (`none` when `ok` is false, otherwise
file and line), of `time.Now()`, and the error that `Write` on a writer returns
for given bytes (`none` for a nil error). -/
structure Env where
  Sprintf : GoString → List Value → GoString
  Caller : Int → Option (GoString × Int)
  Now : Time
  Write : Writer → GoString → Option GoError

/-- Every `Write` call performed so far, oldest first: the writer it was made on
and the bytes passed to it. -/
abbrev Trace := List (Writer × GoString)

/-- The byte slices a writer has received, oldest first. -/
def Trace.writesTo (tr : Trace) (w : Writer) : List GoString :=
  (tr.filter (fun x => decide (x.1 = w))).map (fun x => x.2)

/-! ## logger.go

The lock `mu` only orders concurrent calls; one call at a time is modelled.
A call returns or panics. The stored formatter is a Go function value and may
be nil: it is nil in the zero `Logger` and after `SetFormatter(nil)`, and `log`
panics when it calls it. A non-nil formatter is a pure mapping from an entry to
bytes (spec 4.2), and `Write` returns. -/

/-- How a call ends: it returns a value, or it panics. -/
inductive Outcome (α : Type) where
  | returned (value : α)
  | panicked
  deriving DecidableEq

/-- The outcome of a call whose result is thrown away, as in
`_ = l.log(...)`: a panic stays a panic. -/
def Outcome.discard {α : Type} : Outcome α → Outcome Unit
  | Outcome.returned _ => Outcome.returned ()
  | Outcome.panicked => Outcome.panicked

/-- Source: `type Logger struct`; `writer` is `none` for a nil `io.Writer`,
`formatter` is `none` for a nil `Formatter`. -/
structure Logger where
  writer : Option Writer
  prefix_ : GoString
  formatter : Option Formatter
  callerSkip : Int

/-- The zero value `Logger{}`: every field nil, empty or 0. -/
def Logger.zero : Logger :=
  { writer := none, prefix_ := [], formatter := none, callerSkip := 0 }

/-- Source: `func (l *Logger) SetOutput(w io.Writer)`. -/
def Logger.SetOutput (l : Logger) (w : Option Writer) : Logger :=
  { l with writer := w }

/-- Source: `func (l *Logger) SetPrefix(prefix string)`. -/
def Logger.SetPrefix (l : Logger) (p : GoString) : Logger :=
  { l with prefix_ := p }

/-- Source: `func (l *Logger) SetFormatter(fn Formatter)`; `fn` may be nil. -/
def Logger.SetFormatter (l : Logger) (fn : Option Formatter) : Logger :=
  { l with formatter := fn }

/-- Source: `func New(w io.Writer) *Logger`:
`l := &Logger{}; l.SetOutput(w); l.SetFormatter(DefaultFormatter); return l`. -/
def New (sprint : Sprinter) (w : Option Writer) : Logger :=
  (Logger.zero.SetOutput w).SetFormatter (some (DefaultFormatter sprint))

/-- Source: `func (l *Logger) log(level Level, format string, v ...interface{}) error`.
Returns the Logger after the call, the trace with the `Write` performed, if any,
and how the call ended: with the error of `Write`, or with the panic of calling a
nil `formatter`, which happens before `Write` is called. -/
def Logger.log (l : Logger) (env : Env) (tr : Trace) (level : Level) (format : GoString)
    (v : List Value) : Logger × Trace × Outcome (Option GoError) :=
  let prefix_ := l.prefix_
  let formatter := l.formatter
  let writer := l.writer
  let callerSkip := if l.callerSkip = 0 then 2 else l.callerSkip
  let msg := env.Sprintf format v
  let fileLine : GoString × Int :=
    match env.Caller callerSkip with
    | some (file, line) => (file, line)
    | none => ("???".toList, 0)
  let writer : Writer :=
    match writer with
    | none => Writer.Stdout
    | some w => w
  match formatter with
  | none => (l, tr, Outcome.panicked)
  | some fn =>
    let bytes := fn
      { Time := env.Now, Level := level, Prefix := prefix_, CallerSkip := callerSkip,
        File := fileLine.1, Line := fileLine.2, Message := msg }
    let err := env.Write writer bytes
    (l, tr ++ [(writer, bytes)], Outcome.returned err)

/-- Source: `func (l *Logger) Log(level Level, format string, v ...interface{}) error`. -/
def Logger.Log (l : Logger) (env : Env) (tr : Trace) (level : Level) (format : GoString)
    (v : List Value) : Logger × Trace × Outcome (Option GoError) :=
  l.log env tr level format v

/-- Source: `func (l *Logger) Debug(format string, v ...interface{})`:
`_ = l.log(LevelDebug, format, v...)`. -/
def Logger.Debug (l : Logger) (env : Env) (tr : Trace) (format : GoString)
    (v : List Value) : Logger × Trace × Outcome Unit :=
  let r := l.log env tr LevelDebug format v
  (r.1, r.2.1, r.2.2.discard)

/-- Source: `func (l *Logger) Info(format string, v ...interface{})`. -/
def Logger.Info (l : Logger) (env : Env) (tr : Trace) (format : GoString)
    (v : List Value) : Logger × Trace × Outcome Unit :=
  let r := l.log env tr LevelInfo format v
  (r.1, r.2.1, r.2.2.discard)

/-- Source: `func (l *Logger) Warn(format string, v ...interface{})`. -/
def Logger.Warn (l : Logger) (env : Env) (tr : Trace) (format : GoString)
    (v : List Value) : Logger × Trace × Outcome Unit :=
  let r := l.log env tr LevelWarn format v
  (r.1, r.2.1, r.2.2.discard)

/-- Source: `func (l *Logger) Error(format string, v ...interface{})`. -/
def Logger.Error (l : Logger) (env : Env) (tr : Trace) (format : GoString)
    (v : List Value) : Logger × Trace × Outcome Unit :=
  let r := l.log env tr LevelError format v
  (r.1, r.2.1, r.2.2.discard)

/-- The `LogEntry` literal that `log` builds and hands to the formatter. -/
def Logger.entryOf (l : Logger) (env : Env) (level : Level) (format : GoString)
    (v : List Value) : LogEntry :=
  let callerSkip := if l.callerSkip = 0 then 2 else l.callerSkip
  let fileLine : GoString × Int :=
    match env.Caller callerSkip with
    | some (file, line) => (file, line)
    | none => ("???".toList, 0)
  { Time := env.Now, Level := level, Prefix := l.prefix_, CallerSkip := callerSkip,
    File := fileLine.1, Line := fileLine.2, Message := env.Sprintf format v }

/-- The writer `log` calls `Write` on: the stored one, `os.Stdout` when it is nil. -/
def Logger.sinkOf (l : Logger) : Writer :=
  match l.writer with
  | none => Writer.Stdout
  | some w => w

/-! ## Sequences of calls on one Logger -/

/-- The five emit entry points. -/
inductive Emitter where
  | Log (level : Level)
  | Debug
  | Info
  | Warn
  | Error

/-- One emit call: the entry point, what the call reads from outside, and its
arguments. -/
structure EmitCall where
  via : Emitter
  env : Env
  format : GoString
  args : List Value

/-- A call of one of the Logger's public methods. -/
inductive Call where
  | SetOutput (w : Option Writer)
  | SetPrefix (p : GoString)
  | SetFormatter (fn : Option Formatter)
  | Emit (c : EmitCall)

/-- One emit call on a Logger, dropping what the entry point returns. -/
def Logger.emit (l : Logger) (tr : Trace) (c : EmitCall) : Logger × Trace × Outcome Unit :=
  match c.via with
  | Emitter.Log level =>
    let r := l.Log c.env tr level c.format c.args
    (r.1, r.2.1, r.2.2.discard)
  | Emitter.Debug => l.Debug c.env tr c.format c.args
  | Emitter.Info => l.Info c.env tr c.format c.args
  | Emitter.Warn => l.Warn c.env tr c.format c.args
  | Emitter.Error => l.Error c.env tr c.format c.args

/-- One call on a Logger: the setters perform no `Write` and return. -/
def Logger.exec (l : Logger) (tr : Trace) : Call → Logger × Trace × Outcome Unit
  | Call.SetOutput w => (l.SetOutput w, tr, Outcome.returned ())
  | Call.SetPrefix p => (l.SetPrefix p, tr, Outcome.returned ())
  | Call.SetFormatter fn => (l.SetFormatter fn, tr, Outcome.returned ())
  | Call.Emit c => l.emit tr c

/-- A sequence of calls on a Logger, in order; a call that panics ends it, and
the calls behind it are not made. -/
def Logger.run (l : Logger) (tr : Trace) : List Call → Logger × Trace × Outcome Unit
  | [] => (l, tr, Outcome.returned ())
  | c :: cs =>
    match (l.exec tr c).2.2 with
    | Outcome.returned _ => Logger.run (l.exec tr c).1 (l.exec tr c).2.1 cs
    | Outcome.panicked => ((l.exec tr c).1, (l.exec tr c).2.1, Outcome.panicked)

/-- The level an emit call logs at, as the claims name it: the argument of
`Log`, and the canonical level of each convenience emitter. -/
def Spec.levelOf : Emitter → Level
  | Emitter.Log level => level
  | Emitter.Debug => -4
  | Emitter.Info => 0
  | Emitter.Warn => 4
  | Emitter.Error => 8

/-- The fields of a default-formatted line in front of the prefix segment:
timestamp, styled level and styled `[file:line]`, separated by one space. -/
def Spec.lineHead (sprint : Sprinter) (e : LogEntry) : GoString :=
  e.Time.Format ++ [' '] ++ sprint e.Level.Color e.Level.String ++ [' '] ++
    sprint [Attribute.FgHiBlack]
      (['['] ++ TrimCallerPath e.File 1 ++ [':'] ++ fmtD e.Line ++ [']'])

/-- A sample environment of one call: a format without verbs, the caller at
`/path/to/file.go:42`, noon of 2023-01-01, and a `Write` that succeeds. -/
def sampleEnv : Env :=
  { Sprintf := fun format _ => format
    Caller := fun _ => some ("/path/to/file.go".toList, 42)
    Now := ⟨2023, 1, 1, 12, 0, 0⟩
    Write := fun _ _ => none }

/-- A sample Logger: `New` on sink 1, colour disabled. -/
def sampleLogger : Logger := New Sprinter.plain (some (Writer.Sink 1))

/-- A byte sequence ends with exactly one newline: its last byte is a newline
and the byte before it, if any, is not. -/
def Spec.endsWithOneNewline (out : GoString) : Prop :=
  out.getLast? = some '\n' ∧ out.dropLast.getLast? ≠ some '\n'

instance (out : GoString) : Decidable (Spec.endsWithOneNewline out) := by
  unfold Spec.endsWithOneNewline
  infer_instance

/-! ## `TrimCallerPath` with Go's slice bounds checks

The same function, run with the checks the Go runtime makes on a slice
expression (`s[lo:hi]` panics unless `0 <= lo <= hi <= len(s)`), recording every
index it slices at and counting the loop iterations. -/

/-- What a run of `TrimCallerPath` does: the string returned (`none` when a slice
expression panics), every `idx` used in `path[:idx]` or `path[idx+1:]`, in
order, and the number of iterations of the `for` loop that were entered. -/
structure TrimCallerPath.Run where
  result : Option GoString
  indices : List Int
  iterations : Nat

/-- The `for` loop of `TrimCallerPath` with `k` iterations left, then the final
`return path[idx+1:]`, with bounds checks. `used` and `iters` are the indices
sliced at and the iterations entered so far. -/
def TrimCallerPath.checkedLoop (path : GoString) : Nat → Int → List Int → Nat → TrimCallerPath.Run
  | 0, idx, used, iters =>
    if 0 ≤ idx + 1 ∧ idx + 1 ≤ (path.length : Int) then
      ⟨some (path.drop (idx + 1).toNat), used ++ [idx], iters⟩
    else ⟨none, used ++ [idx], iters⟩
  | k + 1, idx, used, iters =>
    if 0 ≤ idx ∧ idx ≤ (path.length : Int) then
      if LastIndexByte (path.take idx.toNat) '/' = -1 then
        ⟨some path, used ++ [idx], iters + 1⟩
      else
        TrimCallerPath.checkedLoop path k (LastIndexByte (path.take idx.toNat) '/')
          (used ++ [idx]) (iters + 1)
    else ⟨none, used ++ [idx], iters + 1⟩

/-- Source: `func TrimCallerPath(path string, n int) string`, with bounds checks. -/
def TrimCallerPath.checked (path : GoString) (n : Int) : TrimCallerPath.Run :=
  if n ≤ 0 then ⟨some path, [], 0⟩
  else if LastIndexByte path '/' = -1 then ⟨some path, [], 0⟩
  else TrimCallerPath.checkedLoop path (n - 1).toNat (LastIndexByte path '/') [] 0

/-- The number a string of decimal digits denotes, read left to right. -/
def Spec.decimalValue (cs : GoString) : Nat :=
  cs.foldl (fun acc c => acc * 10 + (c.toNat - 48)) 0

/-- The claimed rendering of a band offset (spec 4.1): nothing for offset 0,
otherwise the decimal magnitude behind an explicit `+` or `-`. -/
def Spec.offsetText (o : Int) : GoString :=
  if o = 0 then [] else if 0 < o then '+' :: Nat.toDigits 10 o.natAbs
  else '-' :: Nat.toDigits 10 o.natAbs

theorem Level.String.str_eq (base : GoString) (val : Int) :
    Level.String.str base val = base ++ Spec.offsetText val := by
  unfold Level.String.str Spec.offsetText fmtPlusD
  by_cases h0 : val = 0
  · simp [h0]
  · by_cases hneg : val < 0
    · have hpos : ¬ (0 < val) := by omega
      simp [h0, hneg, hpos]
    · have hpos : 0 < val := by omega
      simp [h0, hneg, hpos]

/-- C1: for every integer level `l`, `Level.String` is the band name followed
by the signed offset from the band's canonical value: DEBUG with `l+4` below 0,
INFO with `l` on `0 ≤ l < 4`, WARN with `l-4` on `4 ≤ l < 8`, ERROR with `l-8`
from 8 on; offset 0 prints nothing, any other offset prints in decimal behind
an explicit sign. The table of the spec is included. -/
theorem Level_String_banding (l : Int) :
    (l < 0 → Level.String l = "DEBUG".toList ++ Spec.offsetText (l + 4)) ∧
    (0 ≤ l ∧ l < 4 → Level.String l = "INFO".toList ++ Spec.offsetText l) ∧
    (4 ≤ l ∧ l < 8 → Level.String l = "WARN".toList ++ Spec.offsetText (l - 4)) ∧
    (8 ≤ l → Level.String l = "ERROR".toList ++ Spec.offsetText (l - 8)) ∧
    Level.String (-6) = "DEBUG-2".toList ∧ Level.String (-4) = "DEBUG".toList ∧
    Level.String 0 = "INFO".toList ∧ Level.String 2 = "INFO+2".toList ∧
    Level.String 4 = "WARN".toList ∧ Level.String 7 = "WARN+3".toList ∧
    Level.String 8 = "ERROR".toList ∧ Level.String 100 = "ERROR+92".toList := by
  refine ⟨?_, ?_, ?_, ?_, by decide, by decide, by decide, by decide, by decide,
    by decide, by decide, by decide⟩
  · intro h
    simp only [Level.String, LevelInfo, LevelDebug, h, if_true, Level.String.str_eq]
    congr 2
  · rintro ⟨h0, h4⟩
    have h1 : ¬ l < 0 := by omega
    simp only [Level.String, LevelInfo, LevelWarn, h1, h4, if_true, if_false,
      Level.String.str_eq, sub_zero]
  · rintro ⟨h4, h8⟩
    have h1 : ¬ l < 0 := by omega
    have h2 : ¬ l < 4 := by omega
    simp only [Level.String, LevelInfo, LevelWarn, LevelError, h1, h2, h8, if_true, if_false,
      Level.String.str_eq]
  · intro h8
    have h1 : ¬ l < 0 := by omega
    have h2 : ¬ l < 4 := by omega
    have h3 : ¬ l < 8 := by omega
    simp only [Level.String, LevelInfo, LevelWarn, LevelError, h1, h2, h3, if_false,
      Level.String.str_eq]

/-! ## Facts about `strings.LastIndexByte` -/

theorem LastIndexByte.scan_spec (s : GoString) (c : Char) :
    ∀ k, k ≤ s.length →
      (LastIndexByte.scan s c k = -1 ∧ c ∉ s.take k) ∨
      (∃ pre suf, s.take k = pre ++ c :: suf ∧ c ∉ suf ∧
        LastIndexByte.scan s c k = (pre.length : Int)) := by
  intro k
  induction k with
  | zero => intro _; left; simp [LastIndexByte.scan]
  | succ k ih =>
    intro hk
    have hlt : k < s.length := by omega
    have htake : s.take (k + 1) = s.take k ++ [s[k]] := by
      rw [List.take_succ, List.getElem?_eq_getElem hlt]; rfl
    by_cases hc : s[k]? = some c
    · right
      have hck : s[k] = c := by
        rw [List.getElem?_eq_getElem hlt] at hc
        exact Option.some.inj hc
      refine ⟨s.take k, [], ?_, by simp, ?_⟩
      · rw [htake, hck]
      · simp only [LastIndexByte.scan, hc, if_true, List.length_take]
        congr 1
        omega
    · have hck : s[k] ≠ c := by
        intro h
        apply hc
        rw [List.getElem?_eq_getElem hlt, h]
      rcases ih (by omega) with ⟨h1, h2⟩ | ⟨pre, suf, h1, h2, h3⟩
      · left
        refine ⟨by simp only [LastIndexByte.scan, hc, if_false, h1], ?_⟩
        rw [htake]
        simp only [List.mem_append, List.mem_singleton, not_or]
        exact ⟨h2, fun h => hck h.symm⟩
      · right
        refine ⟨pre, suf ++ [s[k]], ?_, ?_, ?_⟩
        · rw [htake, h1]; simp
        · simp only [List.mem_append, List.mem_singleton, not_or]
          exact ⟨h2, fun h => hck h.symm⟩
        · simp only [LastIndexByte.scan, hc, if_false, h3]

/-- `LastIndexByte` is `-1` exactly on a string without `c`; otherwise it is the
length of what stands before the last `c`. -/
theorem LastIndexByte_spec (s : GoString) (c : Char) :
    (LastIndexByte s c = -1 ∧ c ∉ s) ∨
    (∃ pre suf, s = pre ++ c :: suf ∧ c ∉ suf ∧ LastIndexByte s c = (pre.length : Int)) := by
  have h := LastIndexByte.scan_spec s c s.length (le_refl _)
  simpa [LastIndexByte] using h

/-! ## Facts about `TrimCallerPath` -/

/-- The loop invariant: entered with `idx` at a separator that has `suf` behind
it, `k` iterations either run out of separators in front of `idx` (the early
return) or end at a separator with `k` more separators behind it. -/
theorem TrimCallerPath.loop_spec (path : GoString) :
    ∀ (k : Nat) (pre suf : GoString), path = pre ++ '/' :: suf →
      (pre.count '/' < k ∧ TrimCallerPath.loop path k (pre.length : Int) = none) ∨
      (k ≤ pre.count '/' ∧ ∃ pre2 suf2, path = pre2 ++ '/' :: suf2 ∧
        suf2.count '/' = suf.count '/' + k ∧
        TrimCallerPath.loop path k (pre.length : Int) = some (pre2.length : Int)) := by
  intro k
  induction k with
  | zero =>
    intro pre suf h
    right
    exact ⟨Nat.zero_le _, pre, suf, h, rfl, rfl⟩
  | succ k ih =>
    intro pre suf h
    have htake : path.take (pre.length : Int).toNat = pre := by
      rw [Int.toNat_ofNat, h, List.take_left]
    rcases LastIndexByte_spec pre '/' with ⟨h1, h2⟩ | ⟨p2, s2, h1, h2, h3⟩
    · left
      constructor
      · rw [List.count_eq_zero.mpr h2]; omega
      · simp only [TrimCallerPath.loop, htake, h1, if_true]
    · have hne : ¬ ((p2.length : Int) = -1) := by omega
      have hstep : TrimCallerPath.loop path (k + 1) (pre.length : Int) =
          TrimCallerPath.loop path k (p2.length : Int) := by
        simp only [TrimCallerPath.loop, htake, h3, hne, if_false]
      have hpath : path = p2 ++ '/' :: (s2 ++ '/' :: suf) := by
        rw [h, h1]; simp
      have hcnt : pre.count '/' = p2.count '/' + 1 := by
        rw [h1, List.count_append, List.count_cons_self, List.count_eq_zero.mpr h2]
      have hcnt2 : (s2 ++ '/' :: suf).count '/' = suf.count '/' + 1 := by
        rw [List.count_append, List.count_cons_self, List.count_eq_zero.mpr h2]; omega
      rcases ih p2 (s2 ++ '/' :: suf) hpath with ⟨h4, h5⟩ | ⟨h4, q, r, h5, h6, h7⟩
      · left
        exact ⟨by omega, by rw [hstep, h5]⟩
      · right
        exact ⟨by omega, q, r, h5, by omega, by rw [hstep, h7]⟩

/-- C2: `TrimCallerPath(path, n)` is `path` when `n <= 0` or `path` has fewer
than `n` separators; otherwise it is what stands strictly behind the `n`-th
separator from the end, so it holds exactly `n - 1` separators (none for
`n = 1`: the final segment). The table of the test is included. -/
theorem TrimCallerPath_spec (path : GoString) (n : Int) :
    ((n ≤ 0 ∨ (path.count '/' : Int) < n) → TrimCallerPath path n = path) ∧
    ((0 < n ∧ n ≤ (path.count '/' : Int)) →
      ∃ pre, path = pre ++ '/' :: TrimCallerPath path n ∧
        ((TrimCallerPath path n).count '/' : Int) = n - 1) ∧
    TrimCallerPath "/a/b/c/file.go".toList 0 = "/a/b/c/file.go".toList ∧
    TrimCallerPath "/a/b/c/file.go".toList 1 = "file.go".toList ∧
    TrimCallerPath "/a/b/c/file.go".toList 2 = "c/file.go".toList ∧
    TrimCallerPath "/a/b/c/file.go".toList 4 = "a/b/c/file.go".toList ∧
    TrimCallerPath "/a/b/c/file.go".toList 5 = "/a/b/c/file.go".toList ∧
    TrimCallerPath "file.go".toList 1 = "file.go".toList ∧
    TrimCallerPath [] 1 = [] := by
  refine ⟨?_, ?_, by decide, by decide, by decide, by decide, by decide, by decide, by decide⟩
  · intro h
    by_cases hn : n ≤ 0
    · simp only [TrimCallerPath, hn, if_true]
    · have hlt : (path.count '/' : Int) < n := by omega
      rcases LastIndexByte_spec path '/' with ⟨h1, _⟩ | ⟨pre, suf, h1, h2, h3⟩
      · simp only [TrimCallerPath, hn, h1, if_true, if_false]
      · have hne : ¬ ((pre.length : Int) = -1) := by omega
        have hcnt : path.count '/' = pre.count '/' + 1 := by
          rw [h1, List.count_append, List.count_cons_self, List.count_eq_zero.mpr h2]
        rcases TrimCallerPath.loop_spec path (n - 1).toNat pre suf h1 with
          ⟨_, h5⟩ | ⟨h4, _⟩
        · simp only [TrimCallerPath, hn, h3, hne, if_false, h5]
        · omega
  · rintro ⟨hn, hle⟩
    have hn0 : ¬ n ≤ 0 := by omega
    rcases LastIndexByte_spec path '/' with ⟨_, h2⟩ | ⟨pre, suf, h1, h2, h3⟩
    · rw [List.count_eq_zero.mpr h2] at hle
      omega
    · have hne : ¬ ((pre.length : Int) = -1) := by omega
      have hcnt : path.count '/' = pre.count '/' + 1 := by
        rw [h1, List.count_append, List.count_cons_self, List.count_eq_zero.mpr h2]
      rcases TrimCallerPath.loop_spec path (n - 1).toNat pre suf h1 with
        ⟨h4, _⟩ | ⟨_, q, r, h5, h6, h7⟩
      · omega
      · have hres : TrimCallerPath path n = r := by
          simp only [TrimCallerPath, hn0, h3, hne, if_false, h7]
          have : ((q.length : Int) + 1).toNat = q.length + 1 := by omega
          rw [this, h5, show q ++ '/' :: r = (q ++ ['/']) ++ r by simp]
          exact List.drop_left' (by simp)
        rw [hres]
        refine ⟨q, h5, ?_⟩
        rw [h6, List.count_eq_zero.mpr h2]
        omega

/-! ## Facts about `DefaultFormatter` -/

/-- The rendering for any colour mode, as one concatenation. -/
theorem DefaultFormatter_eq (sprint : Sprinter) (e : LogEntry) :
    DefaultFormatter sprint e =
      e.Time.Format ++ [' '] ++ sprint e.Level.Color e.Level.String ++ [' '] ++
      sprint [Attribute.FgHiBlack]
        (['['] ++ TrimCallerPath e.File 1 ++ [':'] ++ fmtD e.Line ++ [']']) ++ [' '] ++
      sprint [Attribute.FgHiBlack, Attribute.Bold]
        (if e.Prefix = [] then [] else e.Prefix ++ [':', ' ']) ++
      sprint e.Level.Color e.Message ++ ['\n'] := by
  by_cases hp : e.Prefix = [] <;> simp [DefaultFormatter, hp]

/-- The rendering with colour disabled. -/
theorem DefaultFormatter_plain_eq (sprint : Sprinter)
    (hplain : ∀ c text, sprint c text = text) (e : LogEntry) :
    DefaultFormatter sprint e =
      e.Time.Format ++ [' '] ++ e.Level.String ++ [' '] ++
      (['['] ++ TrimCallerPath e.File 1 ++ [':'] ++ fmtD e.Line ++ [']']) ++ [' '] ++
      (if e.Prefix = [] then [] else e.Prefix ++ [':', ' ']) ++ e.Message ++ ['\n'] := by
  rw [DefaultFormatter_eq]
  simp only [hplain]

/-- C3: with styling disabled, `DefaultFormatter(e)` is the timestamp, a space,
the level string, a space, `[` trimmed file `:` decimal line `]`, a space, the
prefix segment (prefix and `": "` when the prefix is non-empty, nothing
otherwise), the message and a newline, in this order. -/
theorem DefaultFormatter_plain (sprint : Sprinter)
    (hplain : ∀ c text, sprint c text = text) (e : LogEntry) :
    DefaultFormatter sprint e =
      e.Time.Format ++ [' '] ++ e.Level.String ++ [' '] ++
      (['['] ++ TrimCallerPath e.File 1 ++ [':'] ++ fmtD e.Line ++ [']']) ++ [' '] ++
      (if e.Prefix = [] then [] else e.Prefix ++ [':', ' ']) ++ e.Message ++ ['\n'] :=
  DefaultFormatter_plain_eq sprint hplain e

/-- C3 at the entry of `TestDefaultFormatter`, colour disabled. -/
theorem DefaultFormatter_plain_witness :
    (∀ c text, Sprinter.plain c text = text) ∧
    DefaultFormatter Sprinter.plain
      ⟨⟨2023, 1, 1, 12, 0, 0⟩, LevelInfo, "TEST".toList, "/path/to/file.go".toList, 42,
        "test message".toList, 0⟩ =
      "2023-01-01 12:00:00 INFO [file.go:42] TEST: test message\n".toList :=
  ⟨fun _ _ => rfl,
    (DefaultFormatter_plain Sprinter.plain (fun _ _ => rfl) _).trans (by decide)⟩

/-- C4 as stated fails: with colour disabled, a message that ends in a newline
is rendered with two trailing newlines. -/
theorem DefaultFormatter_two_newlines :
    DefaultFormatter Sprinter.plain
      ⟨⟨2023, 1, 1, 12, 0, 0⟩, LevelInfo, [], "/path/to/file.go".toList, 42,
        "done\n".toList, 0⟩ =
      "2023-01-01 12:00:00 INFO [file.go:42] done\n\n".toList ∧
    ¬ Spec.endsWithOneNewline (DefaultFormatter Sprinter.plain
      ⟨⟨2023, 1, 1, 12, 0, 0⟩, LevelInfo, [], "/path/to/file.go".toList, 42,
        "done\n".toList, 0⟩) := by
  decide

/-- C4, amended: `DefaultFormatter(e)` always ends with a newline; with colour
disabled it ends with exactly one newline if and only if the message does not
itself end with a newline. -/
theorem DefaultFormatter_trailing_newline (sprint : Sprinter) (e : LogEntry) :
    (DefaultFormatter sprint e).getLast? = some '\n' ∧
    ((∀ c text, sprint c text = text) →
      (Spec.endsWithOneNewline (DefaultFormatter sprint e) ↔
        e.Message.getLast? ≠ some '\n')) := by
  constructor
  · rw [DefaultFormatter_eq]
    exact List.getLast?_concat _
  · intro hplain
    have hpre : (e.Time.Format ++ [' '] ++ e.Level.String ++ [' '] ++
        (['['] ++ TrimCallerPath e.File 1 ++ [':'] ++ fmtD e.Line ++ [']']) ++ [' '] ++
        (if e.Prefix = [] then [] else e.Prefix ++ [':', ' '])).getLast? = some ' ' := by
      by_cases hp : e.Prefix = []
      · simp only [hp, if_true, List.append_nil]
        exact List.getLast?_concat _
      · simp only [hp, if_false]
        rw [show e.Prefix ++ [':', ' '] = (e.Prefix ++ [':']) ++ [' '] by simp,
          ← List.append_assoc]
        exact List.getLast?_concat _
    unfold Spec.endsWithOneNewline
    rw [DefaultFormatter_plain_eq sprint hplain, List.getLast?_concat, List.dropLast_concat,
      List.getLast?_append, hpre]
    cases hm : e.Message.getLast? with
    | none => simp
    | some x => simp

/-- C4, amended, at the entry of `TestDefaultFormatter`: one trailing newline. -/
theorem DefaultFormatter_trailing_newline_witness :
    (∀ c text, Sprinter.plain c text = text) ∧
    Spec.endsWithOneNewline (DefaultFormatter Sprinter.plain
      ⟨⟨2023, 1, 1, 12, 0, 0⟩, LevelInfo, "TEST".toList, "/path/to/file.go".toList, 42,
        "test message".toList, 0⟩) :=
  ⟨fun _ _ => rfl,
    ((DefaultFormatter_trailing_newline Sprinter.plain _).2 (fun _ _ => rfl)).mpr (by decide)⟩

/-! ## Facts about the Logger -/

/-- What `log` does on a Logger with a formatter, in one equation: the Logger
is returned as it was, one `Write` of the formatter's bytes is made on the sink,
and the call returns the error of that `Write`. -/
theorem Logger.log_some (l : Logger) (env : Env) (tr : Trace) (level : Level)
    (format : GoString) (v : List Value) (f : Formatter) (hf : l.formatter = some f) :
    l.log env tr level format v =
      (l, tr ++ [(l.sinkOf, f (l.entryOf env level format v))],
        Outcome.returned (env.Write l.sinkOf (f (l.entryOf env level format v)))) := by
  unfold Logger.log Logger.sinkOf Logger.entryOf
  simp only [hf]

/-- What `log` does on a Logger whose formatter is nil: it panics, with no
`Write` made and the Logger as it was. -/
theorem Logger.log_none (l : Logger) (env : Env) (tr : Trace) (level : Level)
    (format : GoString) (v : List Value) (hf : l.formatter = none) :
    l.log env tr level format v = (l, tr, Outcome.panicked) := by
  unfold Logger.log
  simp only [hf]

theorem Logger.emit_some (l : Logger) (tr : Trace) (c : EmitCall) (f : Formatter)
    (hf : l.formatter = some f) :
    l.emit tr c =
      (l, tr ++ [(l.sinkOf, f (l.entryOf c.env (Spec.levelOf c.via) c.format c.args))],
        Outcome.returned ()) := by
  unfold Logger.emit
  cases hv : c.via <;>
    simp only [Logger.Log, Logger.Debug, Logger.Info, Logger.Warn, Logger.Error,
      Logger.log_some _ _ _ _ _ _ f hf, Spec.levelOf, LevelDebug, LevelInfo, LevelWarn,
      LevelError, Outcome.discard]

theorem Logger.emit_none (l : Logger) (tr : Trace) (c : EmitCall)
    (hf : l.formatter = none) :
    l.emit tr c = (l, tr, Outcome.panicked) := by
  unfold Logger.emit
  cases hv : c.via <;>
    simp only [Logger.Log, Logger.Debug, Logger.Info, Logger.Warn, Logger.Error,
      Logger.log_none _ _ _ _ _ _ hf, Outcome.discard]

theorem Logger.run_emits_some (l : Logger) (calls : List EmitCall) (f : Formatter)
    (hf : l.formatter = some f) :
    ∀ tr : Trace, l.run tr (calls.map Call.Emit) =
      (l, tr ++ calls.map (fun c => (l.sinkOf,
        f (l.entryOf c.env (Spec.levelOf c.via) c.format c.args))), Outcome.returned ()) := by
  induction calls with
  | nil => intro tr; simp [Logger.run]
  | cons c cs ih =>
    intro tr
    simp only [List.map_cons, Logger.run, Logger.exec, Logger.emit_some l _ c f hf, ih]
    simp

theorem Logger.run_emits_none (l : Logger) (calls : List EmitCall)
    (hf : l.formatter = none) (tr : Trace) :
    ∃ outcome : Outcome Unit, l.run tr (calls.map Call.Emit) = (l, tr, outcome) := by
  cases calls with
  | nil => exact ⟨Outcome.returned (), rfl⟩
  | cons c cs =>
    refine ⟨Outcome.panicked, ?_⟩
    simp only [List.map_cons, Logger.run, Logger.exec, Logger.emit_none l _ c hf]

/-- C5: on a Logger with the default formatter, after `SetPrefix(p)` every line
emitted is the head fields (timestamp, level, `[file:line]`), one space, the
prefix segment and the message region, then a newline. The prefix segment is the
styled `p + ": "` when `p` is non-empty and the styled empty text otherwise;
with colour disabled the line is `head p: message` for a non-empty `p` and
`head message` for the empty one. Every call returns. -/
theorem SetPrefix_lines (sprint : Sprinter) (l : Logger)
    (hfmt : l.formatter = some (DefaultFormatter sprint)) (p : GoString) (tr : Trace)
    (calls : List EmitCall) :
    ∃ lines : Trace,
      l.run tr (Call.SetPrefix p :: calls.map Call.Emit) =
        (l.SetPrefix p, tr ++ lines, Outcome.returned ()) ∧
      List.Forall₂ (fun (c : EmitCall) (line : Writer × GoString) =>
        (p ≠ [] → line.2 =
          Spec.lineHead sprint ((l.SetPrefix p).entryOf c.env (Spec.levelOf c.via) c.format c.args)
            ++ [' '] ++ sprint [Attribute.FgHiBlack, Attribute.Bold] (p ++ [':', ' ']) ++
            sprint (Level.Color (Spec.levelOf c.via)) (c.env.Sprintf c.format c.args) ++ ['\n']) ∧
        (p = [] → line.2 =
          Spec.lineHead sprint ((l.SetPrefix p).entryOf c.env (Spec.levelOf c.via) c.format c.args)
            ++ [' '] ++ sprint [Attribute.FgHiBlack, Attribute.Bold] [] ++
            sprint (Level.Color (Spec.levelOf c.via)) (c.env.Sprintf c.format c.args) ++ ['\n']) ∧
        ((∀ col text, sprint col text = text) →
          (p ≠ [] → line.2 =
            Spec.lineHead sprint
              ((l.SetPrefix p).entryOf c.env (Spec.levelOf c.via) c.format c.args)
              ++ [' '] ++ p ++ [':', ' '] ++ c.env.Sprintf c.format c.args ++ ['\n']) ∧
          (p = [] → line.2 =
            Spec.lineHead sprint
              ((l.SetPrefix p).entryOf c.env (Spec.levelOf c.via) c.format c.args)
              ++ [' '] ++ c.env.Sprintf c.format c.args ++ ['\n'])))
        calls lines := by
  have hf : (l.SetPrefix p).formatter = some (DefaultFormatter sprint) := hfmt
  refine ⟨calls.map (fun c => ((l.SetPrefix p).sinkOf, DefaultFormatter sprint
    ((l.SetPrefix p).entryOf c.env (Spec.levelOf c.via) c.format c.args))), ?_, ?_⟩
  · simp only [Logger.run, Logger.exec,
      Logger.run_emits_some (l.SetPrefix p) calls (DefaultFormatter sprint) hf]
  · rw [List.forall₂_map_right_iff, List.forall₂_same]
    intro c _
    have hpre : ((l.SetPrefix p).entryOf c.env (Spec.levelOf c.via) c.format c.args).Prefix
        = p := rfl
    have hmsg : ((l.SetPrefix p).entryOf c.env (Spec.levelOf c.via) c.format c.args).Message
        = c.env.Sprintf c.format c.args := rfl
    have hlvl : ((l.SetPrefix p).entryOf c.env (Spec.levelOf c.via) c.format c.args).Level
        = Spec.levelOf c.via := rfl
    simp only [DefaultFormatter_eq, hpre, hmsg, hlvl, Spec.lineHead]
    refine ⟨fun hp => ?_, fun hp => ?_, fun hplain => ⟨fun hp => ?_, fun hp => ?_⟩⟩
    · simp only [hp, if_false]
    · simp only [hp, if_true]
    · simp only [hp, if_false, hplain, List.append_assoc]
    · simp only [hp, if_true, hplain, List.append_nil]

/-- C5 at the calls of `TestSetPrefix`: `SetPrefix("TEST")`, then `Info`. -/
theorem SetPrefix_lines_witness :
    sampleLogger.formatter = some (DefaultFormatter Sprinter.plain) ∧
    ∃ lines : Trace,
      sampleLogger.run [] (Call.SetPrefix "TEST".toList ::
        [(⟨Emitter.Info, sampleEnv, "with prefix".toList, []⟩ : EmitCall)].map Call.Emit) =
        (sampleLogger.SetPrefix "TEST".toList, [] ++ lines, Outcome.returned ()) ∧
      lines.map Prod.snd =
        ["2023-01-01 12:00:00 INFO [file.go:42] TEST: with prefix\n".toList] := by
  obtain ⟨lines, hrun, hall⟩ := SetPrefix_lines Sprinter.plain sampleLogger rfl "TEST".toList []
    [(⟨Emitter.Info, sampleEnv, "with prefix".toList, []⟩ : EmitCall)]
  refine ⟨rfl, lines, hrun, ?_⟩
  cases hall with
  | cons h htail =>
    cases htail
    simp only [List.map_cons, List.map_nil]
    rw [(h.2.2 (fun _ _ => rfl)).1 (by decide)]
    decide

/-- C6: on a Logger with a formatter `f`, every emit call, at any level,
performs exactly one `Write`, on the Logger's sink, with exactly the bytes `f`
returns for the entry built, and so after `SetFormatter(f)`. On a Logger whose
formatter is nil (the zero Logger, or after `SetFormatter(nil)`) the call panics
and performs no `Write`. -/
theorem emit_one_write_or_panic (l : Logger) (env : Env) (tr : Trace)
    (level : Level) (format : GoString) (v : List Value) :
    (∀ f : Formatter, l.formatter = some f →
      (l.Log env tr level format v).2.1 =
        tr ++ [(l.sinkOf, f (l.entryOf env level format v))] ∧
      (l.Debug env tr format v).2.1 =
        tr ++ [(l.sinkOf, f (l.entryOf env LevelDebug format v))] ∧
      (l.Info env tr format v).2.1 =
        tr ++ [(l.sinkOf, f (l.entryOf env LevelInfo format v))] ∧
      (l.Warn env tr format v).2.1 =
        tr ++ [(l.sinkOf, f (l.entryOf env LevelWarn format v))] ∧
      (l.Error env tr format v).2.1 =
        tr ++ [(l.sinkOf, f (l.entryOf env LevelError format v))]) ∧
    (∀ f : Formatter, ((l.SetFormatter (some f)).Log env tr level format v).2.1 =
      tr ++ [(l.sinkOf, f (l.entryOf env level format v))]) ∧
    (l.formatter = none →
      (l.Log env tr level format v).2 = (tr, Outcome.panicked) ∧
      (l.Debug env tr format v).2 = (tr, Outcome.panicked) ∧
      (l.Info env tr format v).2 = (tr, Outcome.panicked) ∧
      (l.Warn env tr format v).2 = (tr, Outcome.panicked) ∧
      (l.Error env tr format v).2 = (tr, Outcome.panicked)) ∧
    ((l.SetFormatter none).Log env tr level format v).2 = (tr, Outcome.panicked) ∧
    (Logger.zero.Log env tr level format v).2 = (tr, Outcome.panicked) := by
  refine ⟨fun f hf => ⟨?_, ?_, ?_, ?_, ?_⟩, fun f => ?_, fun hf => ⟨?_, ?_, ?_, ?_, ?_⟩,
    ?_, ?_⟩
  · simp only [Logger.Log, Logger.log_some l _ _ _ _ _ f hf]
  · simp only [Logger.Debug, Logger.log_some l _ _ _ _ _ f hf]
  · simp only [Logger.Info, Logger.log_some l _ _ _ _ _ f hf]
  · simp only [Logger.Warn, Logger.log_some l _ _ _ _ _ f hf]
  · simp only [Logger.Error, Logger.log_some l _ _ _ _ _ f hf]
  · simp only [Logger.Log, Logger.log_some (l.SetFormatter (some f)) _ _ _ _ _ f rfl]
    rfl
  · simp only [Logger.Log, Logger.log_none l _ _ _ _ _ hf]
  · simp only [Logger.Debug, Logger.log_none l _ _ _ _ _ hf, Outcome.discard]
  · simp only [Logger.Info, Logger.log_none l _ _ _ _ _ hf, Outcome.discard]
  · simp only [Logger.Warn, Logger.log_none l _ _ _ _ _ hf, Outcome.discard]
  · simp only [Logger.Error, Logger.log_none l _ _ _ _ _ hf, Outcome.discard]
  · simp only [Logger.Log, Logger.log_none (l.SetFormatter none) _ _ _ _ _ rfl]
  · simp only [Logger.Log, Logger.log_none Logger.zero _ _ _ _ _ rfl]

/-- C7: on a Logger with a formatter, `Log` returns exactly the error of the
sink's `Write` (nil on success), and `Debug`, `Info`, `Warn` and `Error` return
with the Logger as it was and the one `Write` made, whatever that `Write`
returned. On a Logger whose formatter is nil none of the five returns: each
panics, with the Logger as it was and no `Write` made. -/
theorem Log_returns_write_error_or_panics (l : Logger) (env : Env) (tr : Trace)
    (level : Level) (format : GoString) (v : List Value) :
    (∀ f : Formatter, l.formatter = some f →
      (l.Log env tr level format v).2.2 =
        Outcome.returned (env.Write l.sinkOf (f (l.entryOf env level format v))) ∧
      l.Debug env tr format v =
        (l, tr ++ [(l.sinkOf, f (l.entryOf env LevelDebug format v))], Outcome.returned ()) ∧
      l.Info env tr format v =
        (l, tr ++ [(l.sinkOf, f (l.entryOf env LevelInfo format v))], Outcome.returned ()) ∧
      l.Warn env tr format v =
        (l, tr ++ [(l.sinkOf, f (l.entryOf env LevelWarn format v))], Outcome.returned ()) ∧
      l.Error env tr format v =
        (l, tr ++ [(l.sinkOf, f (l.entryOf env LevelError format v))], Outcome.returned ())) ∧
    (l.formatter = none →
      l.Log env tr level format v = (l, tr, Outcome.panicked) ∧
      l.Debug env tr format v = (l, tr, Outcome.panicked) ∧
      l.Info env tr format v = (l, tr, Outcome.panicked) ∧
      l.Warn env tr format v = (l, tr, Outcome.panicked) ∧
      l.Error env tr format v = (l, tr, Outcome.panicked)) ∧
    (Logger.zero.Log env tr level format v).2.2 = Outcome.panicked ∧
    ((l.SetFormatter none).Log env tr level format v).2.2 = Outcome.panicked := by
  refine ⟨fun f hf => ⟨?_, ?_, ?_, ?_, ?_⟩, fun hf => ⟨?_, ?_, ?_, ?_, ?_⟩, ?_, ?_⟩
  · simp only [Logger.Log, Logger.log_some l _ _ _ _ _ f hf]
  · simp only [Logger.Debug, Logger.log_some l _ _ _ _ _ f hf, Outcome.discard]
  · simp only [Logger.Info, Logger.log_some l _ _ _ _ _ f hf, Outcome.discard]
  · simp only [Logger.Warn, Logger.log_some l _ _ _ _ _ f hf, Outcome.discard]
  · simp only [Logger.Error, Logger.log_some l _ _ _ _ _ f hf, Outcome.discard]
  · simp only [Logger.Log, Logger.log_none l _ _ _ _ _ hf]
  · simp only [Logger.Debug, Logger.log_none l _ _ _ _ _ hf, Outcome.discard]
  · simp only [Logger.Info, Logger.log_none l _ _ _ _ _ hf, Outcome.discard]
  · simp only [Logger.Warn, Logger.log_none l _ _ _ _ _ hf, Outcome.discard]
  · simp only [Logger.Error, Logger.log_none l _ _ _ _ _ hf, Outcome.discard]
  · simp only [Logger.Log, Logger.log_none Logger.zero _ _ _ _ _ rfl]
  · simp only [Logger.Log, Logger.log_none (l.SetFormatter none) _ _ _ _ _ rfl]

/-- C8: `Debug`, `Info`, `Warn` and `Error` are `Log` at the levels -4, 0, 4 and
8 with the returned error dropped: for the same environment they leave the same
Logger and the same trace as `Log` at that level and end as it does, and the
entry handed to the formatter carries that level. -/
theorem convenience_emitters_are_Log (l : Logger) (env : Env) (tr : Trace)
    (format : GoString) (v : List Value) :
    (l.Debug env tr format v =
        ((l.Log env tr LevelDebug format v).1, (l.Log env tr LevelDebug format v).2.1,
          (l.Log env tr LevelDebug format v).2.2.discard) ∧
      (∀ f : Formatter, l.formatter = some f → (l.Debug env tr format v).2.1 =
        tr ++ [(l.sinkOf, f (l.entryOf env (-4) format v))]) ∧
      (l.entryOf env (-4) format v).Level = -4 ∧ LevelDebug = -4) ∧
    (l.Info env tr format v =
        ((l.Log env tr LevelInfo format v).1, (l.Log env tr LevelInfo format v).2.1,
          (l.Log env tr LevelInfo format v).2.2.discard) ∧
      (∀ f : Formatter, l.formatter = some f → (l.Info env tr format v).2.1 =
        tr ++ [(l.sinkOf, f (l.entryOf env 0 format v))]) ∧
      (l.entryOf env 0 format v).Level = 0 ∧ LevelInfo = 0) ∧
    (l.Warn env tr format v =
        ((l.Log env tr LevelWarn format v).1, (l.Log env tr LevelWarn format v).2.1,
          (l.Log env tr LevelWarn format v).2.2.discard) ∧
      (∀ f : Formatter, l.formatter = some f → (l.Warn env tr format v).2.1 =
        tr ++ [(l.sinkOf, f (l.entryOf env 4 format v))]) ∧
      (l.entryOf env 4 format v).Level = 4 ∧ LevelWarn = 4) ∧
    (l.Error env tr format v =
        ((l.Log env tr LevelError format v).1, (l.Log env tr LevelError format v).2.1,
          (l.Log env tr LevelError format v).2.2.discard) ∧
      (∀ f : Formatter, l.formatter = some f → (l.Error env tr format v).2.1 =
        tr ++ [(l.sinkOf, f (l.entryOf env 8 format v))]) ∧
      (l.entryOf env 8 format v).Level = 8 ∧ LevelError = 8) := by
  refine ⟨⟨rfl, fun f hf => ?_, rfl, rfl⟩, ⟨rfl, fun f hf => ?_, rfl, rfl⟩,
    ⟨rfl, fun f hf => ?_, rfl, rfl⟩, ⟨rfl, fun f hf => ?_, rfl, rfl⟩⟩
  · simp only [Logger.Debug, Logger.log_some l _ _ _ _ _ f hf, LevelDebug]
  · simp only [Logger.Info, Logger.log_some l _ _ _ _ _ f hf, LevelInfo]
  · simp only [Logger.Warn, Logger.log_some l _ _ _ _ _ f hf, LevelWarn]
  · simp only [Logger.Error, Logger.log_some l _ _ _ _ _ f hf, LevelError]

/-- C9: on a Logger whose sink is `w1`, `SetOutput(w2)` for another sink `w2`
performs no `Write` and changes the sink, from `w1` to `w2`, and no other field;
every emit after it writes to `w2` only, one `Write` per call on a Logger with a
formatter, and what `w1` has received stays as it was. -/
theorem SetOutput_redirects (l : Logger) (w1 w2 : Writer) (hw1 : l.writer = some w1)
    (hne : w2 ≠ w1) (tr : Trace) (calls : List EmitCall) :
    l.sinkOf = w1 ∧ (l.SetOutput (some w2)).sinkOf = w2 ∧
    l.exec tr (Call.SetOutput (some w2)) = (l.SetOutput (some w2), tr, Outcome.returned ()) ∧
    (l.SetOutput (some w2)).writer = some w2 ∧
    (l.SetOutput (some w2)).prefix_ = l.prefix_ ∧
    (l.SetOutput (some w2)).formatter = l.formatter ∧
    (l.SetOutput (some w2)).callerSkip = l.callerSkip ∧
    ∃ (lines : Trace) (outcome : Outcome Unit),
      l.run tr (Call.SetOutput (some w2) :: calls.map Call.Emit) =
        (l.SetOutput (some w2), tr ++ lines, outcome) ∧
      (l.formatter ≠ none → lines.length = calls.length ∧ outcome = Outcome.returned ()) ∧
      (l.formatter = none → lines = []) ∧
      (∀ x ∈ lines, x.1 = w2) ∧
      Trace.writesTo (tr ++ lines) w1 = Trace.writesTo tr w1 := by
  have hold : l.sinkOf = w1 := by
    unfold Logger.sinkOf
    rw [hw1]
  refine ⟨hold, rfl, rfl, rfl, rfl, rfl, rfl, ?_⟩
  cases hfo : l.formatter with
  | none =>
    have hf : (l.SetOutput (some w2)).formatter = none := hfo
    obtain ⟨outcome, hrun⟩ := Logger.run_emits_none (l.SetOutput (some w2)) calls hf tr
    refine ⟨[], outcome, ?_, ?_, ?_, ?_, ?_⟩
    · simp only [Logger.run, Logger.exec, hrun, List.append_nil]
    · intro h; exact absurd rfl h
    · intro _; rfl
    · intro x hx; simp at hx
    · simp
  | some f =>
    have hf : (l.SetOutput (some w2)).formatter = some f := hfo
    refine ⟨calls.map (fun c => ((l.SetOutput (some w2)).sinkOf,
      f ((l.SetOutput (some w2)).entryOf c.env (Spec.levelOf c.via) c.format c.args))),
      Outcome.returned (), ?_, ?_, ?_, ?_, ?_⟩
    · simp only [Logger.run, Logger.exec,
        Logger.run_emits_some (l.SetOutput (some w2)) calls f hf]
    · intro _; simp
    · intro h; simp at h
    · intro x hx
      simp only [List.mem_map] at hx
      obtain ⟨c, _, rfl⟩ := hx
      rfl
    · have hsink : (l.SetOutput (some w2)).sinkOf = w2 := rfl
      simp only [Trace.writesTo, List.filter_append, List.map_append, hsink]
      have : List.filter (fun x : Writer × GoString => decide (x.1 = w1))
          (List.map (fun c : EmitCall => (w2,
            f ((l.SetOutput (some w2)).entryOf c.env (Spec.levelOf c.via) c.format c.args)))
            calls) = [] := by
        rw [List.filter_eq_nil_iff]
        intro x hx
        simp only [List.mem_map] at hx
        obtain ⟨c, _, rfl⟩ := hx
        simpa using hne
      rw [this]
      simp

/-- C9 at the calls of `TestSetOutput`: sink 1 holds one line, the Logger is
redirected to sink 2 and emits; sink 1 still holds that line only. -/
theorem SetOutput_redirects_witness :
    sampleLogger.writer = some (Writer.Sink 1) ∧ Writer.Sink 2 ≠ Writer.Sink 1 ∧
    ∃ (lines : Trace) (outcome : Outcome Unit),
      sampleLogger.run [(Writer.Sink 1, "message to buffer1\n".toList)]
        (Call.SetOutput (some (Writer.Sink 2)) ::
          [(⟨Emitter.Info, sampleEnv, "message to buffer2".toList, []⟩ : EmitCall)].map
            Call.Emit) =
        (sampleLogger.SetOutput (some (Writer.Sink 2)),
          [(Writer.Sink 1, "message to buffer1\n".toList)] ++ lines, outcome) ∧
      lines.length = 1 ∧ outcome = Outcome.returned () ∧
      Trace.writesTo ([(Writer.Sink 1, "message to buffer1\n".toList)] ++ lines)
        (Writer.Sink 1) = ["message to buffer1\n".toList] := by
  obtain ⟨_, _, _, _, _, _, _, lines, outcome, hrun, hlen, _, _, hw⟩ :=
    SetOutput_redirects sampleLogger (Writer.Sink 1) (Writer.Sink 2) rfl (by decide)
      [(Writer.Sink 1, "message to buffer1\n".toList)]
      [(⟨Emitter.Info, sampleEnv, "message to buffer2".toList, []⟩ : EmitCall)]
  have hsome : sampleLogger.formatter ≠ none := by
    intro h
    exact Option.noConfusion (h : some (DefaultFormatter Sprinter.plain) = none)
  exact ⟨rfl, by decide, lines, outcome, hrun, (hlen hsome).1, (hlen hsome).2,
    hw.trans (by decide)⟩

/-- C10: an emit leaves the Logger's stored sink, prefix, formatter and
caller-skip as they were, however the call ends. When the stored sink is nil
and a formatter is installed, the bytes go to standard output and the stored
sink is still nil afterwards; when the formatter is nil as well, as in the zero
Logger, the call panics and no bytes go anywhere. -/
theorem emit_keeps_configuration (l : Logger) (env : Env) (tr : Trace)
    (level : Level) (format : GoString) (v : List Value) :
    (l.Log env tr level format v).1 = l ∧
    (l.Debug env tr format v).1 = l ∧
    (l.Info env tr format v).1 = l ∧
    (l.Warn env tr format v).1 = l ∧
    (l.Error env tr format v).1 = l ∧
    (l.writer = none → ∀ f : Formatter, l.formatter = some f →
      (l.Log env tr level format v).2.1 =
        tr ++ [(Writer.Stdout, f (l.entryOf env level format v))] ∧
      (l.Log env tr level format v).1.writer = none) ∧
    (l.writer = none → l.formatter = none →
      (l.Log env tr level format v).2 = (tr, Outcome.panicked) ∧
      (l.Log env tr level format v).1.writer = none) ∧
    Logger.zero.writer = none ∧ Logger.zero.formatter = none ∧
    Logger.zero.Log env tr level format v = (Logger.zero, tr, Outcome.panicked) := by
  have hframe : ∀ lv : Level, (l.log env tr lv format v).1 = l := by
    intro lv
    cases hfo : l.formatter with
    | none => rw [Logger.log_none l _ _ _ _ _ hfo]
    | some f => rw [Logger.log_some l _ _ _ _ _ f hfo]
  refine ⟨hframe level, hframe _, hframe _, hframe _, hframe _, ?_, ?_, rfl, rfl, ?_⟩
  · intro hnil f hf
    have hsink : l.sinkOf = Writer.Stdout := by
      unfold Logger.sinkOf
      rw [hnil]
    simp only [Logger.Log, Logger.log_some l _ _ _ _ _ f hf, hsink, hnil, and_self]
  · intro hnil hf
    simp only [Logger.Log, Logger.log_none l _ _ _ _ _ hf, hnil, and_self]
  · simp only [Logger.Log, Logger.log_none Logger.zero _ _ _ _ _ rfl]

/-- C12: on a Logger with a formatter, and so after `SetFormatter(f)`, the entry
`Log(level, format, args)` hands to the formatter has the given level, the
Logger's prefix, the interpolated message, the clock reading, as `CallerSkip`
the Logger's caller-skip or 2 when that is 0 (as on a Logger made by `New`), and
as file and line what `runtime.Caller` resolves at that depth, or `"???"` and 0
when it fails; the entry is formatted and written in both cases. On a Logger
whose formatter is nil the call panics: nothing is formatted or written. -/
theorem Log_entry_fields (l : Logger) (env : Env) (tr : Trace) (level : Level)
    (format : GoString) (v : List Value) :
    ∃ e : LogEntry,
      (∀ f : Formatter, l.formatter = some f → (l.Log env tr level format v).2 =
        (tr ++ [(l.sinkOf, f e)], Outcome.returned (env.Write l.sinkOf (f e)))) ∧
      (∀ f : Formatter, ((l.SetFormatter (some f)).Log env tr level format v).2.1 =
        tr ++ [(l.sinkOf, f e)]) ∧
      e.Level = level ∧ e.Prefix = l.prefix_ ∧ e.Message = env.Sprintf format v ∧
      e.Time = env.Now ∧
      e.CallerSkip = (if l.callerSkip = 0 then 2 else l.callerSkip) ∧
      (∀ sprint w, (New sprint w).callerSkip = 0) ∧
      (∀ file line, env.Caller e.CallerSkip = some (file, line) →
        e.File = file ∧ e.Line = line) ∧
      (env.Caller e.CallerSkip = none → e.File = "???".toList ∧ e.Line = 0) ∧
      (l.formatter = none → (l.Log env tr level format v).2 = (tr, Outcome.panicked)) ∧
      ((l.SetFormatter none).Log env tr level format v).2 = (tr, Outcome.panicked) := by
  refine ⟨l.entryOf env level format v, ?_, ?_, rfl, rfl, rfl, rfl, rfl, fun _ _ => rfl,
    ?_, ?_, ?_, ?_⟩
  · intro f hf
    simp only [Logger.Log, Logger.log_some l _ _ _ _ _ f hf]
  · intro f
    simp only [Logger.Log, Logger.log_some (l.SetFormatter (some f)) _ _ _ _ _ f rfl]
    rfl
  · intro file line h
    have h2 : env.Caller (if l.callerSkip = 0 then 2 else l.callerSkip) = some (file, line) := h
    simp only [Logger.entryOf, h2, and_self]
  · intro h
    have h2 : env.Caller (if l.callerSkip = 0 then 2 else l.callerSkip) = none := h
    simp only [Logger.entryOf, h2, and_self]
  · intro hf
    simp only [Logger.Log, Logger.log_none l _ _ _ _ _ hf]
  · simp only [Logger.Log, Logger.log_none (l.SetFormatter none) _ _ _ _ _ rfl]

/-- C12 on a Logger made by `New` when the caller cannot be resolved: the entry
carries depth 2, `"???"` and line 0, and is still formatted and written. -/
theorem Log_entry_fields_witness :
    ((New Sprinter.plain (some (Writer.Sink 1))).Log
      { Sprintf := fun format _ => format, Caller := fun _ => none,
        Now := ⟨2023, 1, 1, 12, 0, 0⟩, Write := fun _ _ => none }
      [] 2 "lost".toList []).2.1 =
      [(Writer.Sink 1, "2023-01-01 12:00:00 INFO+2 [???:0] lost\n".toList)] := by
  obtain ⟨e, hlog, _, hlvl, hpre, hmsg, htime, hskip, _, _, hnone, _, _⟩ :=
    Log_entry_fields (New Sprinter.plain (some (Writer.Sink 1)))
      { Sprintf := fun format _ => format, Caller := fun _ => none,
        Now := ⟨2023, 1, 1, 12, 0, 0⟩, Write := fun _ _ => none }
      [] 2 "lost".toList []
  obtain ⟨hfile, hline⟩ := hnone rfl
  rw [(congrArg Prod.fst (hlog (DefaultFormatter Sprinter.plain) rfl))]
  have he : e = ⟨⟨2023, 1, 1, 12, 0, 0⟩, 2, [], "???".toList, 0, "lost".toList, 2⟩ := by
    cases e
    simp only [LogEntry.mk.injEq]
    exact ⟨htime, hlvl, hpre, hfile, hline, hmsg, hskip⟩
  rw [he]
  decide

/-! ## Decimal digits can be read back -/

theorem digitChar_value (k : Nat) (hk : k < 10) : (Nat.digitChar k).toNat - 48 = k := by
  interval_cases k <;> rfl

/-- Reading the digits produced for `n` in front of `ds` is reading `ds` from `n`. -/
theorem toDigitsCore_value :
    ∀ (fuel n : Nat) (ds : List Char), n < fuel →
      List.foldl (fun acc c => acc * 10 + (c.toNat - 48)) 0 (Nat.toDigitsCore 10 fuel n ds) =
        List.foldl (fun acc c => acc * 10 + (c.toNat - 48)) n ds := by
  intro fuel
  induction fuel with
  | zero => intro n ds h; omega
  | succ fuel ih =>
    intro n ds h
    have hd : (Nat.digitChar (n % 10)).toNat - 48 = n % 10 :=
      digitChar_value (n % 10) (Nat.mod_lt n (by decide))
    by_cases h0 : n / 10 = 0
    · have hn : n % 10 = n := by omega
      rw [hn] at hd
      simp only [Nat.toDigitsCore, h0, if_true, List.foldl_cons, hn, hd, Nat.zero_mul,
        Nat.zero_add]
    · have hlt : n / 10 < fuel := by omega
      have hsplit : n / 10 * 10 + n % 10 = n := by omega
      simp only [Nat.toDigitsCore, h0, if_false]
      rw [ih (n / 10) _ hlt, List.foldl_cons, hd, hsplit]

theorem decimalValue_toDigits (n : Nat) : Spec.decimalValue (Nat.toDigits 10 n) = n := by
  unfold Spec.decimalValue Nat.toDigits
  rw [toDigitsCore_value (n + 1) n [] (Nat.lt_succ_self n)]
  rfl

theorem toDigits_injective (a b : Nat) (h : Nat.toDigits 10 a = Nat.toDigits 10 b) :
    a = b := by
  rw [← decimalValue_toDigits a, ← decimalValue_toDigits b, h]

theorem Spec.offsetText_injective (a b : Int) (h : Spec.offsetText a = Spec.offsetText b) :
    a = b := by
  unfold Spec.offsetText at h
  by_cases ha : a = 0 <;> by_cases hb : b = 0 <;>
    by_cases hpa : 0 < a <;> by_cases hpb : 0 < b <;>
    simp only [ha, hb, hpa, hpb, if_true, if_false, List.cons.injEq, reduceCtorEq,
      false_and, true_and] at h <;>
    first
      | omega
      | exact absurd h (by decide)
      | exact absurd h.1 (by decide)
      | exact (by have hd := toDigits_injective _ _ h; omega)

/-- The rendering of a level, band by band, with the band names spelled out. -/
theorem Level.String_cases (l : Int) :
    (l < 0 ∧ Level.String l = ['D', 'E', 'B', 'U', 'G'] ++ Spec.offsetText (l + 4)) ∨
    (0 ≤ l ∧ l < 4 ∧ Level.String l = ['I', 'N', 'F', 'O'] ++ Spec.offsetText l) ∨
    (4 ≤ l ∧ l < 8 ∧ Level.String l = ['W', 'A', 'R', 'N'] ++ Spec.offsetText (l - 4)) ∨
    (8 ≤ l ∧ Level.String l = ['E', 'R', 'R', 'O', 'R'] ++ Spec.offsetText (l - 8)) := by
  by_cases h0 : l < 0
  · left
    refine ⟨h0, ?_⟩
    simp only [Level.String, LevelInfo, LevelDebug, h0, if_true, Level.String.str_eq]
    congr 2
  · by_cases h4 : l < 4
    · right; left
      refine ⟨by omega, h4, ?_⟩
      simp only [Level.String, LevelInfo, LevelWarn, h0, h4, if_true, if_false,
        Level.String.str_eq, sub_zero]
      rfl
    · by_cases h8 : l < 8
      · right; right; left
        refine ⟨by omega, h8, ?_⟩
        simp only [Level.String, LevelInfo, LevelWarn, LevelError, h0, h4, h8, if_true,
          if_false, Level.String.str_eq]
        rfl
      · right; right; right
        refine ⟨by omega, ?_⟩
        simp only [Level.String, LevelInfo, LevelWarn, LevelError, h0, h4, h8, if_false,
          Level.String.str_eq]
        rfl

/-- C13: `Level.String` is injective on all integer levels: two levels render
to the same string exactly when they are the same integer, below -4 and from 8
on as well. -/
theorem Level_String_injective (a b : Int) : Level.String a = Level.String b ↔ a = b := by
  constructor
  · intro h
    rcases Level.String_cases a with ⟨ha, ea⟩ | ⟨ha, ha2, ea⟩ | ⟨ha, ha2, ea⟩ | ⟨ha, ea⟩ <;>
      rcases Level.String_cases b with ⟨hb, eb⟩ | ⟨hb, hb2, eb⟩ | ⟨hb, hb2, eb⟩ | ⟨hb, eb⟩ <;>
      rw [ea, eb] at h <;>
      first
        | exact (by have ho := Spec.offsetText_injective _ _ (List.append_cancel_left h); omega)
        | exact absurd (List.head_eq_of_cons_eq h) (by decide)
  · intro h
    rw [h]

/-- C13 at levels outside the named range: -5 and 12 render differently, and so
do -4 and -14. -/
theorem Level_String_injective_witness :
    Level.String (-5) ≠ Level.String 12 ∧ Level.String (-4) ≠ Level.String (-14) :=
  ⟨fun h => absurd ((Level_String_injective (-5) 12).mp h) (by decide),
    fun h => absurd ((Level_String_injective (-4) (-14)).mp h) (by decide)⟩

/-! ## The bounds-checked run of `TrimCallerPath` -/

/-- The invariant of the checked loop: entered with `idx` at a separator, it
returns what the unchecked loop returns, slices only at indices inside the
string, and enters at most `k` iterations, and at most `idx + 1`. -/
theorem TrimCallerPath.checkedLoop_spec (path : GoString) :
    ∀ (k : Nat) (pre suf : GoString) (used : List Int) (iters : Nat),
      path = pre ++ '/' :: suf →
      (TrimCallerPath.checkedLoop path k (pre.length : Int) used iters).result =
        some (match TrimCallerPath.loop path k (pre.length : Int) with
          | none => path
          | some idx => path.drop (idx + 1).toNat) ∧
      (∀ i ∈ (TrimCallerPath.checkedLoop path k (pre.length : Int) used iters).indices,
        i ∈ used ∨ (0 ≤ i ∧ i < (path.length : Int))) ∧
      (TrimCallerPath.checkedLoop path k (pre.length : Int) used iters).iterations ≤ iters + k ∧
      (TrimCallerPath.checkedLoop path k (pre.length : Int) used iters).iterations ≤
        iters + pre.length + 1 := by
  intro k
  induction k with
  | zero =>
    intro pre suf used iters h
    have hlen : path.length = pre.length + 1 + suf.length := by
      rw [h]; simp; omega
    have hin : 0 ≤ (pre.length : Int) + 1 ∧ (pre.length : Int) + 1 ≤ (path.length : Int) := by
      omega
    simp only [TrimCallerPath.checkedLoop, hin, and_self, if_true, TrimCallerPath.loop]
    refine ⟨trivial, ?_, by omega, by omega⟩
    intro i hi
    rcases List.mem_append.mp hi with hu | hl
    · exact Or.inl hu
    · right
      rw [List.mem_singleton.mp hl]
      omega
  | succ k ih =>
    intro pre suf used iters h
    have hlen : path.length = pre.length + 1 + suf.length := by
      rw [h]; simp; omega
    have hin : 0 ≤ (pre.length : Int) ∧ (pre.length : Int) ≤ (path.length : Int) := by
      omega
    have htake : path.take (pre.length : Int).toNat = pre := by
      rw [Int.toNat_ofNat, h, List.take_left]
    have hused : ∀ i ∈ used ++ [(pre.length : Int)],
        i ∈ used ∨ (0 ≤ i ∧ i < (path.length : Int)) := by
      intro i hi
      rcases List.mem_append.mp hi with hu | hl
      · exact Or.inl hu
      · right
        rw [List.mem_singleton.mp hl]
        omega
    rcases LastIndexByte_spec pre '/' with ⟨h1, _⟩ | ⟨p2, s2, h1, _, h3⟩
    · simp only [TrimCallerPath.checkedLoop, hin, and_self, if_true, htake, h1,
        TrimCallerPath.loop]
      exact ⟨trivial, hused, by omega, by omega⟩
    · have hne : ¬ ((p2.length : Int) = -1) := by omega
      have hpath : path = p2 ++ '/' :: (s2 ++ '/' :: suf) := by
        rw [h, h1]; simp
      have hplen : pre.length = p2.length + 1 + s2.length := by
        rw [h1]; simp; omega
      obtain ⟨r1, r2, r3, r4⟩ := ih p2 (s2 ++ '/' :: suf) (used ++ [(pre.length : Int)])
        (iters + 1) hpath
      simp only [TrimCallerPath.checkedLoop, hin, and_self, if_true, htake, h3, hne, if_false,
        TrimCallerPath.loop]
      refine ⟨r1, ?_, by omega, by omega⟩
      intro i hi
      rcases r2 i hi with hu | hr
      · exact hused i hu
      · exact Or.inr hr

/-- C14: `TrimCallerPath` returns for every path and every integer `n`, without
a slice out of range: every index `idx` used in `path[:idx]` or `path[idx+1:]`
satisfies `0 <= idx < len(path)`, the loop is entered at most `n - 1` times (and
never more than `len(path)` times, however large `n`), and the result is a
suffix of `path`. Runs on the empty path, on paths that start or end with the
separator, and for negative and very large `n` are included. -/
theorem TrimCallerPath_in_range (path : GoString) (n : Int) :
    (TrimCallerPath.checked path n).result = some (TrimCallerPath path n) ∧
    (∀ idx ∈ (TrimCallerPath.checked path n).indices,
      0 ≤ idx ∧ idx < (path.length : Int)) ∧
    ((TrimCallerPath.checked path n).iterations : Int) ≤ max (n - 1) 0 ∧
    (TrimCallerPath.checked path n).iterations ≤ path.length ∧
    TrimCallerPath path n <:+ path ∧
    ((TrimCallerPath.checked "/a/b/c/file.go".toList 2).result = some "c/file.go".toList ∧
      (TrimCallerPath.checked "/a/b/c/file.go".toList 2).indices = [6, 4] ∧
      (TrimCallerPath.checked "/a/b/c/file.go".toList 2).iterations = 1) ∧
    ((TrimCallerPath.checked "/a/b/c/file.go".toList 5).result = some "/a/b/c/file.go".toList ∧
      (TrimCallerPath.checked "/a/b/c/file.go".toList 5).indices = [6, 4, 2, 0] ∧
      (TrimCallerPath.checked "/a/b/c/file.go".toList 5).iterations = 4) ∧
    ((TrimCallerPath.checked [] 1).result = some [] ∧
      (TrimCallerPath.checked [] 1).indices = []) ∧
    ((TrimCallerPath.checked "/".toList 3).result = some "/".toList ∧
      (TrimCallerPath.checked "/".toList 3).indices = [0] ∧
      (TrimCallerPath.checked "/".toList 3).iterations = 1) ∧
    ((TrimCallerPath.checked "a/".toList 1).result = some [] ∧
      (TrimCallerPath.checked "a/".toList 1).indices = [1]) ∧
    (TrimCallerPath.checked "a/b".toList (-3)).result = some "a/b".toList ∧
    ((TrimCallerPath.checked "a/b".toList 9223372036854775807).result = some "a/b".toList ∧
      (TrimCallerPath.checked "a/b".toList 9223372036854775807).iterations = 1) := by
  refine ⟨?_, ?_, ?_, ?_, ?_, by decide, by decide, by decide, by decide, by decide,
    by decide, by decide⟩
  · by_cases hn : n ≤ 0
    · simp only [TrimCallerPath.checked, TrimCallerPath, hn, if_true]
    · rcases LastIndexByte_spec path '/' with ⟨h1, _⟩ | ⟨pre, suf, h1, _, h3⟩
      · simp only [TrimCallerPath.checked, TrimCallerPath, hn, h1, if_true, if_false]
      · have hne : ¬ ((pre.length : Int) = -1) := by omega
        simp only [TrimCallerPath.checked, TrimCallerPath, hn, h3, hne, if_false]
        exact (TrimCallerPath.checkedLoop_spec path (n - 1).toNat pre suf [] 0 h1).1
  · by_cases hn : n ≤ 0
    · simp [TrimCallerPath.checked, hn]
    · rcases LastIndexByte_spec path '/' with ⟨h1, _⟩ | ⟨pre, suf, h1, _, h3⟩
      · simp [TrimCallerPath.checked, hn, h1]
      · have hne : ¬ ((pre.length : Int) = -1) := by omega
        simp only [TrimCallerPath.checked, hn, h3, hne, if_false]
        intro idx hidx
        rcases (TrimCallerPath.checkedLoop_spec path (n - 1).toNat pre suf [] 0 h1).2.1
          idx hidx with hu | hr
        · simp at hu
        · exact hr
  · by_cases hn : n ≤ 0
    · simp [TrimCallerPath.checked, hn]
    · rcases LastIndexByte_spec path '/' with ⟨h1, _⟩ | ⟨pre, suf, h1, _, h3⟩
      · simp [TrimCallerPath.checked, hn, h1]
      · have hne : ¬ ((pre.length : Int) = -1) := by omega
        simp only [TrimCallerPath.checked, hn, h3, hne, if_false]
        have hk := (TrimCallerPath.checkedLoop_spec path (n - 1).toNat pre suf [] 0 h1).2.2.1
        have hmax : n - 1 ≤ max (n - 1) 0 := le_max_left _ _
        omega
  · by_cases hn : n ≤ 0
    · simp [TrimCallerPath.checked, hn]
    · rcases LastIndexByte_spec path '/' with ⟨h1, _⟩ | ⟨pre, suf, h1, _, h3⟩
      · simp [TrimCallerPath.checked, hn, h1]
      · have hne : ¬ ((pre.length : Int) = -1) := by omega
        have hlen : path.length = pre.length + 1 + suf.length := by
          rw [h1]; simp; omega
        simp only [TrimCallerPath.checked, hn, h3, hne, if_false]
        have hk := (TrimCallerPath.checkedLoop_spec path (n - 1).toNat pre suf [] 0 h1).2.2.2
        omega
  · unfold TrimCallerPath
    split_ifs
    · exact List.suffix_refl _
    · exact List.suffix_refl _
    · split
      · exact List.suffix_refl _
      · exact List.drop_suffix _ _

end Logx
